import Mathlib

/-!
Verification of the statistical core of the haystack pipeline.

Embedded source files:
  src/haystack/workflow/scripts/calculate_taxa_probabilities.py
    (taxon identification posterior probabilities), and
  src/scripts/calculate_dirichlet_abundances.py
    (Dirichlet posterior abundance estimates).

The pandas and scipy operations those scripts perform over in-memory tables
are translated to Lean functions over lists of records.  The abundance path
is purely rational arithmetic and is embedded over the rationals; the
identification path raises model deltas to real-valued exponents and is
embedded over the reals with Real.rpow.  The scipy Beta quantile function
(beta.ppf), an external numerical routine, is passed in as an abstract
function parameter to the abundance estimator, exactly mirroring how the
script delegates the quantile computation to scipy.
-/

namespace Haystack

universe u v

/-- Failure modes surfaced by the two scripts: the assertion that fires on a
zero-sized input file (its message carries the file path), the Python
ValueError raised when a file content cannot be parsed as a float, and the
pandas KeyError raised by a failed label lookup. -/
inductive Err : Type where
  | emptyInput : String → Err
  | valueError : Err
  | keyError : String → Err
  deriving DecidableEq

/-- Boolean success test for a computation that may fail. -/
def isOkE {ε : Type u} {α : Type v} : Except ε α → Bool
  | Except.ok _ => true
  | Except.error _ => false

/-- Monadic map over a list of fallible computations: the first failure
aborts the whole loop, mirroring an uncaught exception in the Python row
loop. -/
def mapMExcept {ε : Type u} {α β : Type} (f : α → Except ε β) : List α → Except ε (List β)
  | [] => Except.ok []
  | x :: xs =>
    match f x with
    | Except.error e => Except.error e
    | Except.ok y =>
      match mapMExcept f xs with
      | Except.error e => Except.error e
      | Except.ok ys => Except.ok (y :: ys)

/-- First-match association lookup, modelling a pandas label lookup on a
Series whose index entries are unique. -/
def lookupKey {β : Type} (k : String) : List (String × β) → Option β
  | [] => none
  | (k2, v) :: rest => if k2 = k then some v else lookupKey k rest

/-- Label assignment on a pandas Series: overwrite the entry when the label
already exists in the index, append a new entry otherwise. -/
def locSet {β : Type} (l : List (String × β)) (k : String) (v : β) : List (String × β) :=
  match l with
  | [] => [(k, v)]
  | (k2, w) :: rest => if k2 = k then (k2, v) :: rest else (k2, w) :: locSet rest k v

/-- Aggregation groupby(key).agg(agg): one entry per distinct key, each
aggregated from the sublist of rows carrying that key. -/
def groupAgg {α β : Type} (key : α → String) (agg : List α → β) (rows : List α) :
    List (String × β) :=
  (rows.map key).dedup.map (fun k => (k, agg (rows.filter (fun r => key r = k))))

/-- Insertion step of a descending sort: gt x y means x must come before y. -/
def insertDescBy {α : Type} (gt : α → α → Bool) (x : α) : List α → List α
  | [] => [x]
  | y :: ys => if gt x y then x :: y :: ys else y :: insertDescBy gt x ys

/-- Descending sort by insertion, modelling sort_values(ascending=False). -/
def sortDescBy {α : Type} (gt : α → α → Bool) : List α → List α
  | [] => []
  | x :: xs => insertDescBy gt x (sortDescBy gt xs)

/-! Basic lemmas about the table helpers. -/

theorem mem_insertDescBy {α : Type} (gt : α → α → Bool) (x : α) (l : List α) (z : α) :
    z ∈ insertDescBy gt x l ↔ z ∈ x :: l := by
  induction l with
  | nil => simp [insertDescBy]
  | cons y ys ih =>
    cases hgt : gt x y with
    | true => simp [insertDescBy, hgt]
    | false =>
      simp only [insertDescBy, hgt, Bool.false_eq_true, if_false, List.mem_cons]
      rw [List.mem_cons] at ih
      rw [ih]
      tauto

theorem mem_sortDescBy {α : Type} (gt : α → α → Bool) (l : List α) (z : α) :
    z ∈ sortDescBy gt l ↔ z ∈ l := by
  induction l with
  | nil => simp [sortDescBy]
  | cons x xs ih =>
    simp only [sortDescBy]
    rw [mem_insertDescBy]
    simp only [List.mem_cons]
    rw [ih]

theorem lookupKey_locSet_self {β : Type} (l : List (String × β)) (k : String) (v : β) :
    lookupKey k (locSet l k v) = some v := by
  induction l with
  | nil => simp [locSet, lookupKey]
  | cons p rest ih =>
    obtain ⟨k2, w⟩ := p
    by_cases h : k2 = k
    · simp [locSet, lookupKey, h]
    · simp [locSet, lookupKey, h, ih]

theorem lookupKey_locSet_ne {β : Type} (l : List (String × β)) (k k2 : String) (v : β)
    (h : k2 ≠ k) : lookupKey k (locSet l k2 v) = lookupKey k l := by
  induction l with
  | nil => simp [locSet, lookupKey, h]
  | cons p rest ih =>
    obtain ⟨k3, w⟩ := p
    simp only [locSet]
    by_cases h3 : k3 = k2
    · subst h3
      rw [if_pos rfl]
      simp [lookupKey, h]
    · rw [if_neg h3]
      by_cases h4 : k3 = k
      · simp [lookupKey, h4]
      · simp [lookupKey, h4, ih]

theorem lookupKey_map_of_mem {β : Type} (f : String → β) (L : List String) (k : String)
    (h : k ∈ L) : lookupKey k (L.map (fun x => (x, f x))) = some (f k) := by
  induction L with
  | nil => cases h
  | cons a L ih =>
    by_cases ha : a = k
    · subst ha
      simp [lookupKey]
    · rcases List.mem_cons.mp h with h1 | h1
      · exact absurd h1.symm ha
      · simp [lookupKey, ha, ih h1]

/-- Lookup of a groupby aggregate at a key occurring in the table yields the
aggregate of exactly the rows carrying that key. -/
theorem lookupKey_groupAgg {α β : Type} (key : α → String) (agg : List α → β)
    (rows : List α) (k : String) (h : k ∈ rows.map key) :
    lookupKey k (groupAgg key agg rows) = some (agg (rows.filter (fun r => key r = k))) := by
  unfold groupAgg
  exact lookupKey_map_of_mem _ _ _ (List.mem_dedup.mpr h)

theorem keys_locSet_cases {β : Type} (l : List (String × β)) (k : String) (v : β) :
    (locSet l k v).map Prod.fst = l.map Prod.fst ∨
      (k ∉ l.map Prod.fst ∧ (locSet l k v).map Prod.fst = l.map Prod.fst ++ [k]) := by
  induction l with
  | nil =>
    right
    constructor
    · simp
    · simp [locSet]
  | cons p rest ih =>
    obtain ⟨k2, w⟩ := p
    simp only [locSet]
    by_cases h : k2 = k
    · left
      rw [if_pos h]
      simp [h]
    · rw [if_neg h]
      rcases ih with ih | ⟨ih1, ih2⟩
      · left
        simp [ih]
      · right
        constructor
        · simp only [List.map_cons, List.mem_cons]
          push_neg
          exact ⟨fun hc => h hc.symm, ih1⟩
        · simp [ih2]

theorem nodup_keys_locSet {β : Type} (l : List (String × β)) (k : String) (v : β)
    (hl : (l.map Prod.fst).Nodup) : ((locSet l k v).map Prod.fst).Nodup := by
  rcases keys_locSet_cases l k v with h | ⟨h1, h2⟩
  · rw [h]; exact hl
  · rw [h2]
    refine List.Nodup.append hl (List.nodup_singleton k) ?_
    intro a ha hb
    rw [List.mem_singleton] at hb
    subst hb
    exact h1 ha

/-- When the assigned label is not yet in the index, label assignment is an
append. -/
theorem locSet_of_not_mem {β : Type} (l : List (String × β)) (k : String) (v : β)
    (h : k ∉ l.map Prod.fst) : locSet l k v = l ++ [(k, v)] := by
  induction l with
  | nil => simp [locSet]
  | cons p rest ih =>
    obtain ⟨k2, w⟩ := p
    simp only [List.map_cons, List.mem_cons] at h
    push_neg at h
    simp [locSet, Ne.symm h.1, ih h.2]

theorem lookupKey_eq_of_mem {β : Type} (l : List (String × β)) (p : String × β)
    (hl : (l.map Prod.fst).Nodup) (hp : p ∈ l) : lookupKey p.1 l = some p.2 := by
  induction l with
  | nil => cases hp
  | cons q rest ih =>
    obtain ⟨k2, w⟩ := q
    simp only [List.map_cons, List.nodup_cons] at hl
    rcases List.mem_cons.mp hp with h1 | h1
    · subst h1
      simp [lookupKey]
    · have hne : k2 ≠ p.1 := by
        intro hc
        exact hl.1 (hc ▸ List.mem_map.mpr ⟨p, h1, rfl⟩)
      simp [lookupKey, hne, ih hl.2 h1]

theorem mapMExcept_ok_mem {ε : Type u} {α β : Type} (f : α → Except ε β) (l : List α)
    (out : List β) (h : mapMExcept f l = Except.ok out) (r : β) (hr : r ∈ out) :
    ∃ x ∈ l, f x = Except.ok r := by
  induction l generalizing out with
  | nil =>
    simp only [mapMExcept] at h
    cases h
    cases hr
  | cons x xs ih =>
    simp only [mapMExcept] at h
    cases hfx : f x with
    | error e => rw [hfx] at h; cases h
    | ok y =>
      rw [hfx] at h
      cases hrest : mapMExcept f xs with
      | error e => rw [hrest] at h; cases h
      | ok ys =>
        rw [hrest] at h
        cases h
        rcases List.mem_cons.mp hr with h1 | h1
        · exact ⟨x, List.mem_cons_self _ _, h1 ▸ hfx⟩
        · obtain ⟨z, hz, hfz⟩ := ih ys hrest h1
          exact ⟨z, List.mem_cons_of_mem _ hz, hfz⟩

/-! Data model of the abundance path, src/scripts/calculate_dirichlet_abundances.py.
Files carry both their byte size on disk (what os.stat(...).st_size checks)
and their parsed tabular content. -/

/-- Row of the Dirichlet assignment table, columns Taxon, Read_ID,
Dirichlet_Assignment. -/
structure AssignRow : Type where
  taxon : String
  readId : String
  weight : ℚ
  deriving DecidableEq

/-- Row of the per-read significance table, columns species, pvalue. -/
structure PValueRow : Type where
  species : String
  pvalue : ℚ
  deriving DecidableEq

/-- The assignment table file. -/
structure AssignFile : Type where
  path : String
  bytes : Nat
  rows : List AssignRow

/-- The p-value table file. -/
structure PValueFile : Type where
  path : String
  bytes : Nat
  rows : List PValueRow

/-- The scalar total-read-count file.  Its value is the result of the Python
float(...) parse of the file content; a zero-sized file holds the empty
string, which float(...) rejects with ValueError, hence no value. -/
structure ReadsFile : Type where
  path : String
  bytes : Nat
  value : Option ℚ
  empty_no_value : bytes = 0 → value = none

/-- Harmonic mean as scipy.stats.hmean computes it: n divided by the sum of
the reciprocals. -/
def hmean (xs : List ℚ) : ℚ := (xs.length : ℚ) / ((xs.map (fun x => 1 / x)).sum)

/-- The per-species significance vector: p-values grouped by species and
collapsed with the harmonic mean, after which the two pseudo-taxon labels
are assigned NaN (modelled as none).  A label absent from the vector raises
KeyError on lookup, modelled by the outer Option of lookupKey. -/
def t_test_vector (pv : List PValueRow) : List (String × Option ℚ) :=
  locSet
    (locSet
      (groupAgg (fun r => r.species)
        (fun g => some (hmean (g.map (fun r => r.pvalue)))) pv)
      "Dark_Matter" none)
    "Grey_Matter" none

/-- Per-read summed assignment weight: groupby(Read_ID).sum() restricted to
the one numeric column. -/
def readWeightSums (rows : List AssignRow) : List (String × ℚ) :=
  groupAgg (fun r => r.readId) (fun g => (g.map (fun r => r.weight)).sum) rows

/-- Grey matter mass: the where/replace/fillna indicator summed, that is the
number of reads whose summed assignment weight is exactly 0. -/
def greyMatterMass (rows : List AssignRow) : ℚ :=
  ((readWeightSums rows).map (fun p => if p.2 = 0 then (1 : ℚ) else 0)).sum

/-- Number of distinct reads appearing in the assignment table, as computed
by len of Read_ID unique. -/
def readsInBams (rows : List AssignRow) : Nat :=
  (rows.map (fun r => r.readId)).dedup.length

/-- The aggregated per-category mass vector a: per-taxon summed assignment
weights, then the Grey_Matter label assigned the grey mass and the
Dark_Matter label assigned totalReads minus the distinct aligned reads. -/
def massVector (rows : List AssignRow) (totalReads : ℚ) : List (String × ℚ) :=
  locSet
    (locSet
      (groupAgg (fun r => r.taxon) (fun g => (g.map (fun r => r.weight)).sum) rows)
      "Grey_Matter" (greyMatterMass rows))
    "Dark_Matter" (totalReads - (readsInBams rows : ℚ))

/-- The total pre-smoothing mass over all output categories, the script
local b equal to a.sum(). -/
def massTotal (rows : List AssignRow) (totalReads : ℚ) : ℚ :=
  ((massVector rows totalReads).map (fun q => q.2)).sum

/-- The number of output categories, the script local len(a), the two
pseudo-taxa included. -/
def categoryCount (rows : List AssignRow) (totalReads : ℚ) : ℚ :=
  ((massVector rows totalReads).length : ℚ)

/-- The raw mass fetched by label from the aggregated vector, the a.loc
fetch of the output loop. -/
def massAt (rows : List AssignRow) (totalReads : ℚ) (t : String) : ℚ :=
  (lookupKey t (massVector rows totalReads)).getD 0

/-- The scipy beta.interval construction for a given confidence level, with
the Beta quantile function ppf passed in: the pair of quantiles at
(1 - conf)/2 and (1 + conf)/2. -/
def betaInterval (ppf : ℚ → ℚ → ℚ → ℚ) (conf a b : ℚ) : ℚ × ℚ :=
  (ppf ((1 - conf) / 2) a b, ppf ((1 + conf) / 2) a b)

/-- Python round(): nearest integer, with exact halves sent to the even
neighbour. -/
def pyRound (q : ℚ) : ℤ :=
  if q - (⌊q⌋ : ℚ) < 1 / 2 then ⌊q⌋
  else if (1 : ℚ) / 2 < q - (⌊q⌋ : ℚ) then ⌊q⌋ + 1
  else if ⌊q⌋ % 2 = 0 then ⌊q⌋ else ⌊q⌋ + 1

/-- Row of the abundance output table.  The Fisher.Exact.Pvalue column can
hold NaN, modelled as none. -/
structure AbundanceRow : Type where
  species : String
  meanAbundance : ℚ
  ciLower : ℚ
  ciUpper : ℚ
  minReadNum : ℤ
  maxReadNum : ℤ
  dirichletReadNum : ℚ
  fisherPvalue : Option ℚ
  deriving DecidableEq

/-- Body of the output loop for one row of the abundance frame: the raw mass
is fetched by label from a (the label is always present there), the Beta
credible interval and the read-count bounds are computed, and the
significance score is fetched from the t-test vector, raising KeyError when
the label is missing from it. -/
def buildAbundanceRow (ppf : ℚ → ℚ → ℚ → ℚ) (a : List (String × ℚ))
    (ttv : List (String × Option ℚ)) (b : ℚ) (t : String) (mean : ℚ) :
    Except Err AbundanceRow :=
  let ai := (lookupKey t a).getD 0
  let ci := betaInterval ppf (95 / 100) (ai + 1) (b + (a.length : ℚ) - ai - 1)
  match lookupKey t ttv with
  | none => Except.error (Err.keyError t)
  | some pv =>
    Except.ok ⟨t, mean, ci.1, ci.2, pyRound (ci.1 * b), pyRound (ci.2 * b), ai, pv⟩

/-- The calculate_dirichlet_abundances script, with the scipy Beta quantile
function passed in as ppf.  The three leading size asserts, the float parse
of the scalar file, the mass aggregation, the Laplace-smoothed means sorted
descending, and the per-row output loop are modelled in source order. -/
def calculate_dirichlet_abundances (ppf : ℚ → ℚ → ℚ → ℚ) (tsTv : AssignFile)
    (pvalues : PValueFile) (totalReadsFile : ReadsFile) :
    Except Err (List AbundanceRow) :=
  if tsTv.bytes = 0 then Except.error (Err.emptyInput tsTv.path)
  else if pvalues.bytes = 0 then Except.error (Err.emptyInput pvalues.path)
  else if totalReadsFile.bytes = 0 then Except.error (Err.emptyInput totalReadsFile.path)
  else
    match totalReadsFile.value with
    | none => Except.error Err.valueError
    | some total =>
      mapMExcept
        (fun x => buildAbundanceRow ppf (massVector tsTv.rows total)
          (t_test_vector pvalues.rows) (massTotal tsTv.rows total) x.1 x.2)
        (sortDescBy (fun x y => decide (y.2 < x.2))
          ((massVector tsTv.rows total).map
            (fun q => (q.1,
              (q.2 + 1) / (massTotal tsTv.rows total + categoryCount tsTv.rows total)))))

/-! Data model of the identification path,
src/haystack/workflow/scripts/calculate_taxa_probabilities.py.  The script
raises the model deltas to arbitrary real exponents, so this path is
embedded over the reals. -/

/-- Row of the mismatch table, columns Taxon, Read_ID, Ts, Tv (the script
reads Taxon, Ts, Tv for aggregation and Read_ID separately for the distinct
read count). -/
structure MismatchRecord : Type where
  taxon : String
  readId : String
  ts : ℝ
  tv : ℝ

/-- The mismatch table file. -/
structure TsTvFile : Type where
  path : String
  bytes : Nat
  rows : List MismatchRecord

/-- The probability model parameters loaded from the params JSON file. -/
structure ModelParams : Type where
  ts_missing_val : ℝ
  tv_missing_val : ℝ
  delta_t : ℝ
  delta_v : ℝ

/-- The model parameters file. -/
structure ParamsFile : Type where
  path : String
  bytes : Nat
  params : ModelParams

/-- Number of distinct Read_ID values anywhere in the table, as computed by
len of Read_ID unique. -/
def read_count (rows : List MismatchRecord) : Nat :=
  (rows.map (fun r => r.readId)).dedup.length

/-- One row of the aggregated mismatch frame: a taxon with its imputed Ts
and Tv totals. -/
structure AggRow : Type where
  taxon : String
  ts : ℝ
  tv : ℝ

/-- The groupby(Taxon).agg step of calculate_probabilities: per taxon, the
observed column sum plus (read_count minus the group size) times the
missing-value penalty plus one, for the Ts and the Tv column. -/
noncomputable def mismatch_df (p : ModelParams) (rows : List MismatchRecord) : List AggRow :=
  (groupAgg (fun r => r.taxon)
    (fun g =>
      ((g.map (fun r => r.ts)).sum +
          ((read_count rows : ℝ) - (g.length : ℝ)) * (p.ts_missing_val + 1),
        (g.map (fun r => r.tv)).sum +
          ((read_count rows : ℝ) - (g.length : ℝ)) * (p.tv_missing_val + 1)))
    rows).map (fun e => ⟨e.1, e.2.1, e.2.2⟩)

/-- Columnwise subtraction of a scalar, Series.subtract. -/
noncomputable def colSub (xs : List ℝ) (c : ℝ) : List ℝ := xs.map (fun x => x - c)

/-- Columnwise reversed power, Series.rpow: the scalar raised to each
column entry. -/
noncomputable def colRpow (b : ℝ) (xs : List ℝ) : List ℝ := xs.map (fun e => b ^ e)

/-- Elementwise product of two columns. -/
noncomputable def colMul (xs ys : List ℝ) : List ℝ := List.zipWith (fun a b => a * b) xs ys

/-- The loop body of calculate_probabilities for one row of the aggregated
frame: the Ts and Tv columns are shifted by the row totals, used as
exponents of delta_t and delta_v, multiplied elementwise, summed, and the
posterior is one over that denominator summation. -/
noncomputable def rowPosterior (p : ModelParams) (df : List AggRow) (i : AggRow) : ℝ :=
  1 / (colMul (colRpow p.delta_t (colSub (df.map (fun r => r.ts)) i.ts))
        (colRpow p.delta_v (colSub (df.map (fun r => r.tv)) i.tv))).sum

/-- Row of the identification output table, columns Taxon, Ts, Tv,
Posterior, Read_Count, Total_Reads, Submatrix, Sample. -/
structure PosteriorRow : Type where
  taxon : String
  ts : ℝ
  tv : ℝ
  posterior : ℝ
  readCount : Nat
  totalReads : ℝ
  submatrixLabel : String
  sampleName : String

/-- The aggregated frame with the posterior column filled in and the rows
sorted by posterior descending. -/
noncomputable def posterior_rows (p : ModelParams) (rows : List MismatchRecord) (total : ℝ)
    (sub sam : String) : List PosteriorRow :=
  let df := mismatch_df p rows
  sortDescBy (fun x y => decide (y.posterior < x.posterior))
    (df.map (fun i =>
      ⟨i.taxon, i.ts, i.tv, rowPosterior p df i, read_count rows, total, sub, sam⟩))

/-- The calculate_probabilities function: parses the scalar total-reads file
with float(...) (ValueError when unparsable; the script does not size-check
this file), then aggregates and computes the posterior rows.  When the
distinct read count is zero the script only prints a message and moves on,
producing an empty output frame. -/
noncomputable def calculate_probabilities (p : ModelParams) (tsTv : TsTvFile)
    (totalReadsFile : ReadsFile) (sub sam : String) : Except Err (List PosteriorRow) :=
  match totalReadsFile.value with
  | none => Except.error Err.valueError
  | some total => Except.ok (posterior_rows p tsTv.rows ((total : ℚ) : ℝ) sub sam)

/-- The calculate_taxa_probabilities wrapper: asserts that the mismatch file
and the params file are not zero-sized (the assert messages carry the file
paths) and delegates to calculate_probabilities for the all-taxa
submatrix. -/
noncomputable def calculate_taxa_probabilities (tsTv : TsTvFile) (paramsFile : ParamsFile)
    (totalReadsFile : ReadsFile) (sam : String) : Except Err (List PosteriorRow) :=
  if tsTv.bytes = 0 then Except.error (Err.emptyInput tsTv.path)
  else if paramsFile.bytes = 0 then Except.error (Err.emptyInput paramsFile.path)
  else calculate_probabilities paramsFile.params tsTv totalReadsFile "all taxa" sam

/-! Lemmas about the posterior computation. -/

theorem zipWith_map_map {α β γ δ : Type} (f : β → γ → δ) (g : α → β) (h : α → γ)
    (l : List α) : List.zipWith f (l.map g) (l.map h) = l.map (fun x => f (g x) (h x)) := by
  induction l with
  | nil => rfl
  | cons a l ih => simp [ih]

/-- The columnwise subtract/rpow/multiply/sum chain of the loop body equals
the direct per-row sum of delta powers. -/
theorem rowPosterior_eq (p : ModelParams) (df : List AggRow) (i : AggRow) :
    rowPosterior p df i =
      1 / (df.map (fun j => p.delta_t ^ (j.ts - i.ts) * p.delta_v ^ (j.tv - i.tv))).sum := by
  unfold rowPosterior colMul colRpow colSub
  simp only [List.map_map]
  rw [zipWith_map_map]
  simp [Function.comp]

/-- The denominator summation of the posterior of one aggregated row. -/
noncomputable def denomSum (p : ModelParams) (df : List AggRow) (i : AggRow) : ℝ :=
  (df.map (fun j => p.delta_t ^ (j.ts - i.ts) * p.delta_v ^ (j.tv - i.tv))).sum

theorem rowPosterior_eq_denomSum (p : ModelParams) (df : List AggRow) (i : AggRow) :
    rowPosterior p df i = 1 / denomSum p df i :=
  rowPosterior_eq p df i

theorem denomSum_term_pos (p : ModelParams) (hdt : 0 < p.delta_t) (hdv : 0 < p.delta_v)
    (i j : AggRow) : 0 < p.delta_t ^ (j.ts - i.ts) * p.delta_v ^ (j.tv - i.tv) :=
  mul_pos (Real.rpow_pos_of_pos hdt _) (Real.rpow_pos_of_pos hdv _)

/-- The own term of a row in its denominator summation is exactly one, and
hence the summation is at least one. -/
theorem one_le_denomSum (p : ModelParams) (df : List AggRow) (i : AggRow)
    (hdt : 0 < p.delta_t) (hdv : 0 < p.delta_v) (hi : i ∈ df) :
    1 ≤ denomSum p df i := by
  have hterm : p.delta_t ^ (i.ts - i.ts) * p.delta_v ^ (i.tv - i.tv) = 1 := by
    rw [sub_self, sub_self, Real.rpow_zero, Real.rpow_zero, one_mul]
  have hnonneg : ∀ x ∈ df.map (fun j => p.delta_t ^ (j.ts - i.ts) * p.delta_v ^ (j.tv - i.tv)),
      (0 : ℝ) ≤ x := by
    intro x hx
    rcases List.mem_map.mp hx with ⟨j, _, rfl⟩
    exact le_of_lt (denomSum_term_pos p hdt hdv i j)
  have hmem : p.delta_t ^ (i.ts - i.ts) * p.delta_v ^ (i.tv - i.tv) ∈
      df.map (fun j => p.delta_t ^ (j.ts - i.ts) * p.delta_v ^ (j.tv - i.tv)) :=
    List.mem_map.mpr ⟨i, hi, rfl⟩
  have h := List.single_le_sum hnonneg _ hmem
  rw [hterm] at h
  exact h

/-- Claim C1: for a non-empty aggregated comparison set and positive model
deltas, the posterior computed for row i equals one over the sum over all
rows j of delta_t to the power of the Ts difference times delta_v to the
power of the Tv difference; the j equal to i term of that sum is exactly
one; and the pair of row i with this posterior is a row of the final sorted
output frame. -/
theorem claim_C1_posterior_formula (p : ModelParams) (rows : List MismatchRecord)
    (total : ℝ) (sub sam : String) (i : AggRow)
    (hdt : 0 < p.delta_t) (hdv : 0 < p.delta_v) (hi : i ∈ mismatch_df p rows) :
    rowPosterior p (mismatch_df p rows) i =
        1 / ((mismatch_df p rows).map
          (fun j => p.delta_t ^ (j.ts - i.ts) * p.delta_v ^ (j.tv - i.tv))).sum ∧
      p.delta_t ^ (i.ts - i.ts) * p.delta_v ^ (i.tv - i.tv) = 1 ∧
      (⟨i.taxon, i.ts, i.tv, rowPosterior p (mismatch_df p rows) i, read_count rows, total,
          sub, sam⟩ : PosteriorRow) ∈ posterior_rows p rows total sub sam := by
  refine ⟨rowPosterior_eq p (mismatch_df p rows) i, ?_, ?_⟩
  · rw [sub_self, sub_self, Real.rpow_zero, Real.rpow_zero, one_mul]
  · unfold posterior_rows
    rw [mem_sortDescBy]
    exact List.mem_map.mpr ⟨i, hi, rfl⟩

/-- Model parameters used in concrete identification-path instances. -/
noncomputable def pW : ModelParams := ⟨0, 0, 1 / 2, 1 / 10⟩

/-- Concrete mismatch table used in concrete identification-path
instances. -/
noncomputable def rowsW : List MismatchRecord :=
  [⟨"A", "r1", 2, 1⟩, ⟨"B", "r1", 10, 5⟩]

/-- The aggregated row of taxon A for the table rowsW: one distinct read
and one record per taxon, so no missing-read penalty applies. -/
noncomputable def aggA : AggRow := ⟨"A", 2, 1⟩

theorem claim_C1_posterior_formula_witness :
    (0 : ℝ) < pW.delta_t ∧ (0 : ℝ) < pW.delta_v ∧ aggA ∈ mismatch_df pW rowsW ∧
      rowPosterior pW (mismatch_df pW rowsW) aggA =
        1 / ((mismatch_df pW rowsW).map
          (fun j => pW.delta_t ^ (j.ts - aggA.ts) * pW.delta_v ^ (j.tv - aggA.tv))).sum := by
  have hdt : (0 : ℝ) < pW.delta_t := by norm_num [pW]
  have hdv : (0 : ℝ) < pW.delta_v := by norm_num [pW]
  have hmem : aggA ∈ mismatch_df pW rowsW := by
    simp [mismatch_df, groupAgg, read_count, List.dedup, rowsW, aggA, pW]
  exact ⟨hdt, hdv, hmem,
    (claim_C1_posterior_formula pW rowsW 100 "all taxa" "s1" aggA hdt hdv hmem).1⟩

/-- Claim C2: the aggregated frame contains, for each taxon present in the
table, the row whose Ts total is the observed Ts sum plus the number of
missing reads times the Ts missing penalty plus one, and likewise for Tv;
read_count is the number of distinct reads anywhere in the table and is
shared by all taxa of the invocation; and every aggregated row for that
taxon carries exactly these totals. -/
theorem claim_C2_aggregation_formula (p : ModelParams) (rows : List MismatchRecord)
    (t : String) (ht : t ∈ rows.map (fun r => r.taxon)) :
    ((⟨t,
        ((rows.filter (fun r => r.taxon = t)).map (fun r => r.ts)).sum +
          ((read_count rows : ℝ) - ((rows.filter (fun r => r.taxon = t)).length : ℝ)) *
            (p.ts_missing_val + 1),
        ((rows.filter (fun r => r.taxon = t)).map (fun r => r.tv)).sum +
          ((read_count rows : ℝ) - ((rows.filter (fun r => r.taxon = t)).length : ℝ)) *
            (p.tv_missing_val + 1)⟩ : AggRow) ∈ mismatch_df p rows) ∧
      ∀ row ∈ mismatch_df p rows, row.taxon = t →
        row.ts =
            ((rows.filter (fun r => r.taxon = t)).map (fun r => r.ts)).sum +
              ((read_count rows : ℝ) - ((rows.filter (fun r => r.taxon = t)).length : ℝ)) *
                (p.ts_missing_val + 1) ∧
          row.tv =
            ((rows.filter (fun r => r.taxon = t)).map (fun r => r.tv)).sum +
              ((read_count rows : ℝ) - ((rows.filter (fun r => r.taxon = t)).length : ℝ)) *
                (p.tv_missing_val + 1) := by
  constructor
  · unfold mismatch_df groupAgg
    exact List.mem_map.mpr ⟨(t, _, _), List.mem_map.mpr ⟨t, List.mem_dedup.mpr ht, rfl⟩, rfl⟩
  · intro row hrow htax
    unfold mismatch_df groupAgg at hrow
    rcases List.mem_map.mp hrow with ⟨e, he, rfl⟩
    rcases List.mem_map.mp he with ⟨k, _, rfl⟩
    obtain rfl : k = t := htax
    exact ⟨rfl, rfl⟩

theorem claim_C2_aggregation_formula_witness :
    "A" ∈ rowsW.map (fun r => r.taxon) ∧
      ((⟨"A",
          ((rowsW.filter (fun r => r.taxon = "A")).map (fun r => r.ts)).sum +
            ((read_count rowsW : ℝ) - ((rowsW.filter (fun r => r.taxon = "A")).length : ℝ)) *
              (pW.ts_missing_val + 1),
          ((rowsW.filter (fun r => r.taxon = "A")).map (fun r => r.tv)).sum +
            ((read_count rowsW : ℝ) - ((rowsW.filter (fun r => r.taxon = "A")).length : ℝ)) *
              (pW.tv_missing_val + 1)⟩ : AggRow) ∈ mismatch_df pW rowsW) := by
  have ht : "A" ∈ rowsW.map (fun r => r.taxon) := by simp [rowsW]
  exact ⟨ht, (claim_C2_aggregation_formula pW rowsW "A" ht).1⟩

/-- Claim C7: with both deltas strictly between zero and one, every
posterior of the comparison set lies in the half-open unit interval, and a
row whose Ts and Tv totals are strictly below those of every other row
attains the maximum posterior of the set. -/
theorem claim_C7_posterior_range_dominance (p : ModelParams) (df : List AggRow) (i : AggRow)
    (hi : i ∈ df) (hdt0 : 0 < p.delta_t) (hdt1 : p.delta_t < 1)
    (hdv0 : 0 < p.delta_v) (hdv1 : p.delta_v < 1) :
    (0 < rowPosterior p df i ∧ rowPosterior p df i ≤ 1) ∧
      ((∀ j ∈ df, j = i ∨ (i.ts < j.ts ∧ i.tv < j.tv)) →
        ∀ m ∈ df, rowPosterior p df m ≤ rowPosterior p df i) := by
  have hSi : 1 ≤ denomSum p df i := one_le_denomSum p df i hdt0 hdv0 hi
  have hSi0 : 0 < denomSum p df i := lt_of_lt_of_le one_pos hSi
  constructor
  · rw [rowPosterior_eq_denomSum]
    exact ⟨by positivity, (div_le_one hSi0).mpr hSi⟩
  · intro hdom m hm
    rcases hdom m hm with rfl | ⟨hts, htv⟩
    · exact le_refl _
    · have hSle : denomSum p df i ≤ denomSum p df m := by
        apply List.sum_le_sum
        intro j _
        have h1 : p.delta_t ^ (j.ts - i.ts) ≤ p.delta_t ^ (j.ts - m.ts) :=
          Real.rpow_le_rpow_of_exponent_ge hdt0 (le_of_lt hdt1) (by linarith)
        have h2 : p.delta_v ^ (j.tv - i.tv) ≤ p.delta_v ^ (j.tv - m.tv) :=
          Real.rpow_le_rpow_of_exponent_ge hdv0 (le_of_lt hdv1) (by linarith)
        exact mul_le_mul h1 h2 (le_of_lt (Real.rpow_pos_of_pos hdv0 _))
          (le_of_lt (Real.rpow_pos_of_pos hdt0 _))
      rw [rowPosterior_eq_denomSum, rowPosterior_eq_denomSum]
      exact one_div_le_one_div_of_le hSi0 hSle

/-- Aggregated comparison set used in the concrete dominance instance. -/
noncomputable def dfW : List AggRow := [⟨"A", 2, 1⟩, ⟨"B", 10, 5⟩]

theorem claim_C7_posterior_range_dominance_witness :
    aggA ∈ dfW ∧ (0 : ℝ) < pW.delta_t ∧ pW.delta_t < 1 ∧ (0 : ℝ) < pW.delta_v ∧ pW.delta_v < 1 ∧
      ((0 < rowPosterior pW dfW aggA ∧ rowPosterior pW dfW aggA ≤ 1) ∧
        ((∀ j ∈ dfW, j = aggA ∨ (aggA.ts < j.ts ∧ aggA.tv < j.tv)) →
          ∀ m ∈ dfW, rowPosterior pW dfW m ≤ rowPosterior pW dfW aggA)) := by
  have hmem : aggA ∈ dfW := by simp [dfW, aggA]
  have h1 : (0 : ℝ) < pW.delta_t := by norm_num [pW]
  have h2 : pW.delta_t < 1 := by norm_num [pW]
  have h3 : (0 : ℝ) < pW.delta_v := by norm_num [pW]
  have h4 : pW.delta_v < 1 := by norm_num [pW]
  exact ⟨hmem, h1, h2, h3, h4,
    claim_C7_posterior_range_dominance pW dfW aggA hmem h1 h2 h3 h4⟩

/-! Mass conservation machinery: summing a groupby aggregate over all its
groups recovers the sum over the whole table. -/

theorem sum_over_keys {α : Type} (key : α → String) (w : α → ℚ) :
    ∀ L : List String, L.Nodup → ∀ rows : List α, (∀ r ∈ rows, key r ∈ L) →
      (L.map (fun k => ((rows.filter (fun r => key r = k)).map w).sum)).sum
        = (rows.map w).sum := by
  intro L
  induction L with
  | nil =>
    intro _ rows hmem
    cases rows with
    | nil => simp
    | cons a rows => exact absurd (hmem a (List.mem_cons_self a rows)) (List.not_mem_nil _)
  | cons k0 ks ih =>
    intro hnodup rows hmem
    rw [List.nodup_cons] at hnodup
    simp only [List.map_cons, List.sum_cons]
    have hrest : ks.map (fun k => ((rows.filter (fun r => key r = k)).map w).sum)
        = ks.map (fun k =>
            (((rows.filter (fun r => ¬ key r = k0)).filter (fun r => key r = k)).map w).sum) := by
      apply List.map_congr_left
      intro k hk
      have hkne : k ≠ k0 := fun hc => hnodup.1 (hc ▸ hk)
      have hfilter : rows.filter (fun r => key r = k)
          = (rows.filter (fun r => ¬ key r = k0)).filter (fun r => key r = k) := by
        rw [List.filter_filter]
        apply List.filter_congr
        intro r _
        by_cases hr : key r = k
        · simp [hr, hkne]
        · simp [hr]
      rw [← hfilter]
    rw [hrest]
    have hmem2 : ∀ r ∈ rows.filter (fun r => ¬ key r = k0), key r ∈ ks := by
      intro r hr
      rw [List.mem_filter] at hr
      have hne : ¬ key r = k0 := by simpa using hr.2
      rcases List.mem_cons.mp (hmem r hr.1) with h | h
      · exact absurd h hne
      · exact h
    rw [ih hnodup.2 (rows.filter (fun r => ¬ key r = k0)) hmem2]
    exact List.sum_map_filter_add_sum_map_filter_not (fun r => key r = k0) w rows

theorem sum_groupAgg_values {α : Type} (key : α → String) (w : α → ℚ) (rows : List α) :
    ((groupAgg key (fun g => (g.map w).sum) rows).map (fun q => q.2)).sum
      = (rows.map w).sum := by
  unfold groupAgg
  rw [List.map_map]
  exact sum_over_keys key w _ (List.nodup_dedup _) rows
    (fun r hr => List.mem_dedup.mpr (List.mem_map.mpr ⟨r, hr, rfl⟩))

theorem sum_add_indicator (l : List (String × ℚ)) (hw : ∀ q ∈ l, q.2 = 0 ∨ q.2 = 1) :
    (l.map (fun q => q.2)).sum + (l.map (fun q => if q.2 = 0 then (1 : ℚ) else 0)).sum
      = (l.length : ℚ) := by
  induction l with
  | nil => simp
  | cons a l ih =>
    have hrest : ∀ q ∈ l, q.2 = 0 ∨ q.2 = 1 := fun q hq => hw q (List.mem_cons_of_mem a hq)
    have ih2 := ih hrest
    rcases hw a (List.mem_cons_self a l) with h | h
    · simp only [List.map_cons, List.sum_cons, List.length_cons, h, if_pos rfl]
      push_cast
      linarith
    · simp only [List.map_cons, List.sum_cons, List.length_cons, h]
      rw [if_neg one_ne_zero]
      push_cast
      linarith

/-- Membership in the key column of a groupby aggregate is membership in the
mapped key column of the table. -/
theorem mem_keys_groupAgg {α β : Type} (key : α → String) (agg : List α → β)
    (rows : List α) (s : String) :
    s ∈ (groupAgg key agg rows).map Prod.fst ↔ s ∈ rows.map key := by
  simp [groupAgg, List.map_map, Function.comp, List.mem_dedup]

/-- Claim C4 (amended): when no real taxon carries a pseudo-taxon label and
every read has summed assignment weight exactly zero or exactly one, the
pre-smoothing masses of all output categories, the two pseudo-taxa
included, sum to the total sample read count.  The counterexample shows the
invariant fails for fractional per-read weight sums. -/
theorem claim_C4_mass_conservation (rows : List AssignRow) (total : ℚ)
    (hg : "Grey_Matter" ∉ rows.map (fun r => r.taxon))
    (hd : "Dark_Matter" ∉ rows.map (fun r => r.taxon))
    (hw : ∀ q ∈ readWeightSums rows, q.2 = 0 ∨ q.2 = 1) :
    massTotal rows total = total := by
  unfold massTotal massVector
  set base := groupAgg (fun r => r.taxon) (fun g => (g.map (fun r => r.weight)).sum) rows
    with hbase
  have hgkeys : "Grey_Matter" ∉ base.map Prod.fst := fun hc =>
    hg ((mem_keys_groupAgg _ _ rows "Grey_Matter").mp hc)
  have hdkeys : "Dark_Matter" ∉ base.map Prod.fst := fun hc =>
    hd ((mem_keys_groupAgg _ _ rows "Dark_Matter").mp hc)
  rw [locSet_of_not_mem base "Grey_Matter" (greyMatterMass rows) hgkeys]
  have hdkeys2 : "Dark_Matter" ∉
      (base ++ [("Grey_Matter", greyMatterMass rows)]).map Prod.fst := by
    rw [List.map_append, List.mem_append]
    rintro (hc | hc)
    · exact hdkeys hc
    · simp at hc
  rw [locSet_of_not_mem _ "Dark_Matter" _ hdkeys2]
  simp only [List.map_append, List.sum_append, List.map_cons, List.map_nil, List.sum_cons,
    List.sum_nil]
  have h1 : (base.map (fun q => q.2)).sum = (rows.map (fun r => r.weight)).sum := by
    rw [hbase]
    exact sum_groupAgg_values (fun r => r.taxon) (fun r => r.weight) rows
  have h2 : ((readWeightSums rows).map (fun q => q.2)).sum
      = (rows.map (fun r => r.weight)).sum := by
    unfold readWeightSums
    exact sum_groupAgg_values (fun r => r.readId) (fun r => r.weight) rows
  have h3 := sum_add_indicator (readWeightSums rows) hw
  have h4 : ((readWeightSums rows).length : ℚ) = (readsInBams rows : ℚ) := by
    simp [readWeightSums, groupAgg, readsInBams]
  have h5 : greyMatterMass rows
      = ((readWeightSums rows).map (fun q => if q.2 = 0 then (1 : ℚ) else 0)).sum := rfl
  rw [h1, h5]
  linarith

/-- Assignment table whose single read has fractional summed weight. -/
def rowsC4 : List AssignRow := [⟨"T1", "r1", 1 / 2⟩]

/-- Claim C4 counterexample: a table whose per-read weights lie in the unit
interval as the claim allows, with total sample reads one, whose output
masses sum to one half rather than to the total. -/
theorem claim_C4_counterexample :
    (∀ r ∈ rowsC4, 0 ≤ r.weight ∧ r.weight ≤ 1) ∧
      massTotal rowsC4 1 = 1 / 2 ∧ ((1 : ℚ) / 2) ≠ 1 := by
  refine ⟨?_, ?_, by norm_num⟩
  · intro r hr
    simp only [rowsC4, List.mem_singleton] at hr
    subst hr
    norm_num
  · simp [massTotal, massVector, groupAgg, readWeightSums, greyMatterMass, readsInBams,
      locSet, lookupKey, List.dedup, rowsC4]

/-- Assignment table whose reads have summed weight one and zero. -/
def rowsC4w : List AssignRow := [⟨"T1", "r1", 1⟩, ⟨"T2", "r2", 0⟩]

theorem claim_C4_mass_conservation_witness :
    ("Grey_Matter" ∉ rowsC4w.map (fun r => r.taxon)) ∧
      ("Dark_Matter" ∉ rowsC4w.map (fun r => r.taxon)) ∧
      (∀ q ∈ readWeightSums rowsC4w, q.2 = 0 ∨ q.2 = 1) ∧
      massTotal rowsC4w 2 = 2 := by
  have hg : "Grey_Matter" ∉ rowsC4w.map (fun r => r.taxon) := by simp [rowsC4w]
  have hd : "Dark_Matter" ∉ rowsC4w.map (fun r => r.taxon) := by simp [rowsC4w]
  have hrw : readWeightSums rowsC4w = [("r1", 1), ("r2", 0)] := by
    simp [readWeightSums, groupAgg, List.dedup, rowsC4w]
  have hw : ∀ q ∈ readWeightSums rowsC4w, q.2 = 0 ∨ q.2 = 1 := by
    rw [hrw]
    intro q hq
    rcases List.mem_cons.mp hq with rfl | hq2
    · right; rfl
    · rcases List.mem_cons.mp hq2 with rfl | hq3
      · left; rfl
      · cases hq3
  exact ⟨hg, hd, hw, claim_C4_mass_conservation rowsC4w 2 hg hd hw⟩

/-! Inversion of a successful abundance run: every output row comes from one
entry of the mass vector through the output loop body. -/

theorem map_fst_pair {β : Type} (f : String → β) (L : List String) :
    L.map (Prod.fst ∘ fun k => (k, f k)) = L := by
  induction L with
  | nil => rfl
  | cons a L ih => simp [ih]

theorem massVector_keys_nodup (rows : List AssignRow) (total : ℚ) :
    ((massVector rows total).map Prod.fst).Nodup := by
  unfold massVector
  apply nodup_keys_locSet
  apply nodup_keys_locSet
  have h : (groupAgg (fun r => r.taxon) (fun g => (g.map (fun r => r.weight)).sum) rows).map
      Prod.fst = (rows.map (fun r => r.taxon)).dedup := by
    simp only [groupAgg, List.map_map]
    exact map_fst_pair _ _
  rw [h]
  exact List.nodup_dedup _

theorem abundance_run_inversion (ppf : ℚ → ℚ → ℚ → ℚ) (tsTv : AssignFile)
    (pvalues : PValueFile) (trf : ReadsFile) (out : List AbundanceRow) (row : AbundanceRow)
    (hok : calculate_dirichlet_abundances ppf tsTv pvalues trf = Except.ok out)
    (hrow : row ∈ out) :
    ∃ total q pv, trf.value = some total ∧
      q ∈ massVector tsTv.rows total ∧
      massAt tsTv.rows total q.1 = q.2 ∧
      lookupKey q.1 (t_test_vector pvalues.rows) = some pv ∧
      row.species = q.1 ∧
      row.meanAbundance
        = (q.2 + 1) / (massTotal tsTv.rows total + categoryCount tsTv.rows total) ∧
      row.ciLower = ppf ((1 - 95 / 100) / 2) (q.2 + 1)
        (massTotal tsTv.rows total + categoryCount tsTv.rows total - q.2 - 1) ∧
      row.ciUpper = ppf ((1 + 95 / 100) / 2) (q.2 + 1)
        (massTotal tsTv.rows total + categoryCount tsTv.rows total - q.2 - 1) ∧
      row.minReadNum = pyRound (row.ciLower * massTotal tsTv.rows total) ∧
      row.maxReadNum = pyRound (row.ciUpper * massTotal tsTv.rows total) ∧
      row.dirichletReadNum = q.2 ∧
      row.fisherPvalue = pv := by
  unfold calculate_dirichlet_abundances at hok
  split at hok
  · exact Except.noConfusion hok
  · split at hok
    · exact Except.noConfusion hok
    · split at hok
      · exact Except.noConfusion hok
      · split at hok
        · exact Except.noConfusion hok
        · rename_i total hval
          obtain ⟨x, hx, hbuild⟩ := mapMExcept_ok_mem _ _ _ hok row hrow
          rw [mem_sortDescBy] at hx
          obtain ⟨q, hq, hxq⟩ := List.mem_map.mp hx
          have hlook : lookupKey q.1 (massVector tsTv.rows total) = some q.2 :=
            lookupKey_eq_of_mem _ q (massVector_keys_nodup tsTv.rows total) hq
          have hmassAt : massAt tsTv.rows total q.1 = q.2 := by
            unfold massAt
            rw [hlook]
            rfl
          subst hxq
          unfold buildAbundanceRow at hbuild
          split at hbuild
          · exact Except.noConfusion hbuild
          · rename_i pv hpv
            injection hbuild with hr
            subst hr
            refine ⟨total, q, pv, hval, hq, hmassAt, hpv, rfl, rfl, ?_, ?_, rfl, rfl, ?_, rfl⟩
            · simp [betaInterval, hlook, categoryCount]
            · simp [betaInterval, hlook, categoryCount]
            · simp [hlook]

/-- Claim C3: every row of a successful abundance run carries the Laplace
smoothed posterior mean of its category, the 0.025 and 0.975 quantiles of
the Beta distribution with parameters a_i + 1 and b + k - a_i - 1 as
credible bounds (through the quantile function ppf supplied to the
estimator), the two bounds rescaled by the total mass and rounded as read
count estimates, and the raw pre-smoothing mass as the Dirichlet read
estimate. -/
theorem claim_C3_abundance_row_formulas (ppf : ℚ → ℚ → ℚ → ℚ) (tsTv : AssignFile)
    (pvalues : PValueFile) (trf : ReadsFile) (total : ℚ) (out : List AbundanceRow)
    (row : AbundanceRow) (hval : trf.value = some total)
    (hok : calculate_dirichlet_abundances ppf tsTv pvalues trf = Except.ok out)
    (hrow : row ∈ out) :
    row.meanAbundance = (massAt tsTv.rows total row.species + 1)
        / (massTotal tsTv.rows total + categoryCount tsTv.rows total) ∧
      row.ciLower = ppf (25 / 1000) (massAt tsTv.rows total row.species + 1)
        (massTotal tsTv.rows total + categoryCount tsTv.rows total
          - massAt tsTv.rows total row.species - 1) ∧
      row.ciUpper = ppf (975 / 1000) (massAt tsTv.rows total row.species + 1)
        (massTotal tsTv.rows total + categoryCount tsTv.rows total
          - massAt tsTv.rows total row.species - 1) ∧
      row.minReadNum = pyRound (row.ciLower * massTotal tsTv.rows total) ∧
      row.maxReadNum = pyRound (row.ciUpper * massTotal tsTv.rows total) ∧
      row.dirichletReadNum = massAt tsTv.rows total row.species := by
  obtain ⟨total2, q, pv, hval2, hq, hmassAt, hpv, hsp, hmean, hlo, hhi, hmin, hmax, hdir,
    hfish⟩ := abundance_run_inversion ppf tsTv pvalues trf out row hok hrow
  rw [hval] at hval2
  injection hval2 with htot
  subst htot
  rw [hsp, hmassAt]
  refine ⟨hmean, ?_, ?_, hmin, hmax, hdir⟩
  · rw [hlo]
    norm_num
  · rw [hhi]
    norm_num

/-- Assignment table of the concrete successful abundance run. -/
def rowsOkW : List AssignRow := [⟨"T1", "r1", 1⟩]

/-- Concrete input files of the successful abundance run. -/
def aFW : AssignFile := ⟨"assignments.csv", 11, rowsOkW⟩

/-- Concrete p-value file of the successful abundance run. -/
def pFW : PValueFile := ⟨"pvalues.tsv", 7, [⟨"T1", 1 / 2⟩]⟩

/-- Concrete total-reads file of the successful abundance run. -/
def rFW : ReadsFile := ⟨"reads.txt", 2, some 10, by simp⟩

/-- Concrete stand-in for the scipy Beta quantile function. -/
def ppfW : ℚ → ℚ → ℚ → ℚ := fun _ _ _ => 0

/-- Output of the concrete successful abundance run: total mass 10 split as
1 for taxon T1, 0 grey matter and 9 dark matter, smoothed by (a_i+1)/13. -/
def outW : List AbundanceRow :=
  [⟨"Dark_Matter", 10 / 13, 0, 0, 0, 0, 9, none⟩,
   ⟨"T1", 2 / 13, 0, 0, 0, 0, 1, some (1 / 2)⟩,
   ⟨"Grey_Matter", 1 / 13, 0, 0, 0, 0, 0, none⟩]

/-- The named-taxon row of the concrete successful abundance run. -/
def rowT1W : AbundanceRow := ⟨"T1", 2 / 13, 0, 0, 0, 0, 1, some (1 / 2)⟩

theorem runW_ok : calculate_dirichlet_abundances ppfW aFW pFW rFW = Except.ok outW := by
  simp [calculate_dirichlet_abundances, aFW, pFW, rFW, ppfW, rowsOkW, massVector, groupAgg,
    readWeightSums, greyMatterMass, readsInBams, locSet, lookupKey, List.dedup, t_test_vector,
    hmean, sortDescBy, insertDescBy, mapMExcept, buildAbundanceRow, betaInterval, pyRound,
    massTotal, categoryCount, outW, decide_eq_true_eq]
  norm_num [insertDescBy, mapMExcept, buildAbundanceRow, betaInterval, pyRound, lookupKey,
    massTotal, categoryCount, decide_eq_true_eq]
  simp

theorem claim_C3_abundance_row_formulas_witness :
    rFW.value = some 10 ∧
      calculate_dirichlet_abundances ppfW aFW pFW rFW = Except.ok outW ∧
      rowT1W ∈ outW ∧
      (rowT1W.meanAbundance = (massAt aFW.rows 10 rowT1W.species + 1)
          / (massTotal aFW.rows 10 + categoryCount aFW.rows 10) ∧
        rowT1W.ciLower = ppfW (25 / 1000) (massAt aFW.rows 10 rowT1W.species + 1)
          (massTotal aFW.rows 10 + categoryCount aFW.rows 10
            - massAt aFW.rows 10 rowT1W.species - 1) ∧
        rowT1W.ciUpper = ppfW (975 / 1000) (massAt aFW.rows 10 rowT1W.species + 1)
          (massTotal aFW.rows 10 + categoryCount aFW.rows 10
            - massAt aFW.rows 10 rowT1W.species - 1) ∧
        rowT1W.minReadNum = pyRound (rowT1W.ciLower * massTotal aFW.rows 10) ∧
        rowT1W.maxReadNum = pyRound (rowT1W.ciUpper * massTotal aFW.rows 10) ∧
        rowT1W.dirichletReadNum = massAt aFW.rows 10 rowT1W.species) :=
  ⟨rfl, runW_ok, by simp [outW, rowT1W],
    claim_C3_abundance_row_formulas ppfW aFW pFW rFW 10 outW rowT1W rfl runW_ok
      (by simp [outW, rowT1W])⟩

/-! Lookup behaviour of the significance vector. -/

theorem t_test_vector_dark (pv : List PValueRow) :
    lookupKey "Dark_Matter" (t_test_vector pv) = some none := by
  unfold t_test_vector
  rw [lookupKey_locSet_ne _ _ "Grey_Matter" _ (by decide)]
  exact lookupKey_locSet_self _ _ _

theorem t_test_vector_grey (pv : List PValueRow) :
    lookupKey "Grey_Matter" (t_test_vector pv) = some none :=
  lookupKey_locSet_self _ _ _

theorem t_test_vector_real (pvrows : List PValueRow) (t : String)
    (ht : t ∈ pvrows.map (fun r => r.species)) (hd : t ≠ "Dark_Matter")
    (hg : t ≠ "Grey_Matter") :
    lookupKey t (t_test_vector pvrows)
      = some (some (hmean
          ((pvrows.filter (fun r => r.species = t)).map (fun r => r.pvalue)))) := by
  unfold t_test_vector
  rw [lookupKey_locSet_ne _ _ "Grey_Matter" _ (Ne.symm hg),
    lookupKey_locSet_ne _ _ "Dark_Matter" _ (Ne.symm hd)]
  exact lookupKey_groupAgg _ _ _ _ ht

/-- Claim C8 (amended): in a successful abundance run the two pseudo-taxon
rows carry an undefined (NaN) significance score, and the row of a taxon
carrying p-values in the p-value table carries the harmonic mean of exactly
those p-values; a named category with no p-values makes the run fail with
KeyError instead of receiving NaN, exhibited by the counterexample. -/
theorem claim_C8_significance_scores (ppf : ℚ → ℚ → ℚ → ℚ) (tsTv : AssignFile)
    (pvalues : PValueFile) (trf : ReadsFile) (out : List AbundanceRow) (row : AbundanceRow)
    (hok : calculate_dirichlet_abundances ppf tsTv pvalues trf = Except.ok out)
    (hrow : row ∈ out) :
    ((row.species = "Dark_Matter" ∨ row.species = "Grey_Matter") →
        row.fisherPvalue = none) ∧
      (row.species ≠ "Dark_Matter" → row.species ≠ "Grey_Matter" →
        row.species ∈ pvalues.rows.map (fun r => r.species) →
        row.fisherPvalue = some (hmean
          ((pvalues.rows.filter (fun r => r.species = row.species)).map
            (fun r => r.pvalue)))) := by
  obtain ⟨total, q, pv, _, _, _, hpv, hsp, _, _, _, _, _, _, hfish⟩ :=
    abundance_run_inversion ppf tsTv pvalues trf out row hok hrow
  constructor
  · intro h
    have hq1 : q.1 = "Dark_Matter" ∨ q.1 = "Grey_Matter" := by rw [← hsp]; exact h
    rw [hfish]
    rcases hq1 with h1 | h1
    · rw [h1, t_test_vector_dark] at hpv
      injection hpv with h2
      exact h2.symm
    · rw [h1, t_test_vector_grey] at hpv
      injection hpv with h2
      exact h2.symm
  · intro hd hg hmem
    have hq1d : q.1 ≠ "Dark_Matter" := by rw [← hsp]; exact hd
    have hq1g : q.1 ≠ "Grey_Matter" := by rw [← hsp]; exact hg
    have hmem2 : q.1 ∈ pvalues.rows.map (fun r => r.species) := by rw [← hsp]; exact hmem
    rw [t_test_vector_real pvalues.rows q.1 hmem2 hq1d hq1g] at hpv
    injection hpv with h2
    rw [hfish, ← h2, hsp]

theorem claim_C8_significance_scores_witness :
    calculate_dirichlet_abundances ppfW aFW pFW rFW = Except.ok outW ∧ rowT1W ∈ outW ∧
      (((rowT1W.species = "Dark_Matter" ∨ rowT1W.species = "Grey_Matter") →
          rowT1W.fisherPvalue = none) ∧
        (rowT1W.species ≠ "Dark_Matter" → rowT1W.species ≠ "Grey_Matter" →
          rowT1W.species ∈ pFW.rows.map (fun r => r.species) →
          rowT1W.fisherPvalue = some (hmean
            ((pFW.rows.filter (fun r => r.species = rowT1W.species)).map
              (fun r => r.pvalue))))) :=
  ⟨runW_ok, by simp [outW, rowT1W],
    claim_C8_significance_scores ppfW aFW pFW rFW outW rowT1W runW_ok
      (by simp [outW, rowT1W])⟩

/-- Assignment file whose taxon X has no p-values in the p-value table. -/
def aC8 : AssignFile := ⟨"assignments.csv", 9, [⟨"X", "r1", 1⟩]⟩

/-- P-value file carrying only species Y. -/
def pC8 : PValueFile := ⟨"pvalues.tsv", 9, [⟨"Y", 1 / 2⟩]⟩

/-- Total-reads file of the KeyError run. -/
def rC8 : ReadsFile := ⟨"reads.txt", 1, some 2, by simp⟩

/-- Claim C8 counterexample: taxon X appears in the assignment table but has
no p-values, and the run fails with KeyError on X instead of giving X an
undefined score. -/
theorem claim_C8_counterexample :
    calculate_dirichlet_abundances ppfW aC8 pC8 rC8 = Except.error (Err.keyError "X") := by
  simp [calculate_dirichlet_abundances, aC8, pC8, rC8, ppfW, massVector, groupAgg,
    readWeightSums, greyMatterMass, readsInBams, locSet, lookupKey, List.dedup, t_test_vector,
    hmean, sortDescBy, insertDescBy, mapMExcept, buildAbundanceRow, betaInterval, pyRound,
    massTotal, categoryCount, decide_eq_true_eq]
  norm_num [insertDescBy, mapMExcept, buildAbundanceRow, betaInterval, pyRound, lookupKey,
    massTotal, categoryCount, decide_eq_true_eq]
  simp

/-! Concrete inputs for the error-handling claims. -/

/-- Mismatch file with content bytes but no data rows (header only). -/
noncomputable def tsTvC6 : TsTvFile := ⟨"ts_tv_counts.csv", 37, []⟩

/-- Params file used by the empty-submatrix runs. -/
noncomputable def paramsC6 : ParamsFile := ⟨"params.json", 21, ⟨0, 0, 1 / 2, 1 / 2⟩⟩

/-- Total-reads file used by the empty-submatrix runs. -/
def trfC6 : ReadsFile := ⟨"total_reads.txt", 3, some 100, by simp⟩

/-- Claim C6 counterexample: with a mismatch table holding no data rows, so
that the distinct read count R is zero, the wrapper raises no error at all:
the invocation returns an empty output frame instead of an
EmptyInputError. -/
theorem claim_C6_counterexample :
    read_count tsTvC6.rows = 0 ∧
      calculate_taxa_probabilities tsTvC6 paramsC6 trfC6 "sample1" = Except.ok [] ∧
      ∀ e : Err,
        calculate_taxa_probabilities tsTvC6 paramsC6 trfC6 "sample1" ≠ Except.error e := by
  have h : calculate_taxa_probabilities tsTvC6 paramsC6 trfC6 "sample1" = Except.ok [] := by
    simp [calculate_taxa_probabilities, calculate_probabilities, posterior_rows, mismatch_df,
      groupAgg, read_count, sortDescBy, tsTvC6, paramsC6, trfC6, List.dedup]
  refine ⟨rfl, h, ?_⟩
  intro e
  rw [h]
  intro hc
  exact Except.noConfusion hc

/-- Claim C6 (amended): when the distinct read count of the mismatch table
is zero the function does not fail with EmptyInputError; the script prints
a message, moves on, and produces an empty output frame. -/
theorem claim_C6_empty_submatrix_moves_on (tsTv : TsTvFile) (paramsFile : ParamsFile)
    (trf : ReadsFile) (total : ℚ) (sam : String) (h1 : tsTv.bytes ≠ 0)
    (h2 : paramsFile.bytes ≠ 0) (h3 : trf.value = some total)
    (h0 : read_count tsTv.rows = 0) :
    calculate_taxa_probabilities tsTv paramsFile trf sam = Except.ok [] := by
  unfold read_count at h0
  have hmap : tsTv.rows.map (fun r => r.readId) = [] :=
    (List.dedup_eq_nil _).mp (List.length_eq_zero.mp h0)
  have hrows : tsTv.rows = [] := List.map_eq_nil_iff.mp hmap
  unfold calculate_taxa_probabilities
  rw [if_neg h1, if_neg h2]
  unfold calculate_probabilities
  rw [h3]
  simp [posterior_rows, mismatch_df, groupAgg, hrows, sortDescBy]

theorem claim_C6_empty_submatrix_moves_on_witness :
    tsTvC6.bytes ≠ 0 ∧ paramsC6.bytes ≠ 0 ∧ trfC6.value = some 100 ∧
      read_count tsTvC6.rows = 0 ∧
      calculate_taxa_probabilities tsTvC6 paramsC6 trfC6 "sample2" = Except.ok [] :=
  ⟨by simp [tsTvC6], by simp [paramsC6], rfl, rfl,
    claim_C6_empty_submatrix_moves_on tsTvC6 paramsC6 trfC6 100 "sample2"
      (by simp [tsTvC6]) (by simp [paramsC6]) rfl rfl⟩

/-- Claim C9 (amended): a zero-sized assignment table, p-value table or
total-reads file makes the abundance run abort with EmptyInputError naming
that file, and a zero-sized mismatch table or params file does the same for
the identification run; but the identification run does not size-check its
total-reads scalar: an empty file there aborts with the float-parse
ValueError, which names no file. -/
theorem claim_C9_empty_input_checks (ppf : ℚ → ℚ → ℚ → ℚ) (aF : AssignFile)
    (pvF : PValueFile) (trF : ReadsFile) (tsF : TsTvFile) (pF : ParamsFile)
    (trG : ReadsFile) (sam : String) :
    (aF.bytes = 0 →
        calculate_dirichlet_abundances ppf aF pvF trF
          = Except.error (Err.emptyInput aF.path)) ∧
      (aF.bytes ≠ 0 → pvF.bytes = 0 →
        calculate_dirichlet_abundances ppf aF pvF trF
          = Except.error (Err.emptyInput pvF.path)) ∧
      (aF.bytes ≠ 0 → pvF.bytes ≠ 0 → trF.bytes = 0 →
        calculate_dirichlet_abundances ppf aF pvF trF
          = Except.error (Err.emptyInput trF.path)) ∧
      (tsF.bytes = 0 →
        calculate_taxa_probabilities tsF pF trG sam
          = Except.error (Err.emptyInput tsF.path)) ∧
      (tsF.bytes ≠ 0 → pF.bytes = 0 →
        calculate_taxa_probabilities tsF pF trG sam
          = Except.error (Err.emptyInput pF.path)) ∧
      (tsF.bytes ≠ 0 → pF.bytes ≠ 0 → trG.bytes = 0 →
        calculate_taxa_probabilities tsF pF trG sam = Except.error Err.valueError) := by
  refine ⟨?_, ?_, ?_, ?_, ?_, ?_⟩
  · intro h
    unfold calculate_dirichlet_abundances
    rw [if_pos h]
  · intro h1 h2
    unfold calculate_dirichlet_abundances
    rw [if_neg h1, if_pos h2]
  · intro h1 h2 h3
    unfold calculate_dirichlet_abundances
    rw [if_neg h1, if_neg h2, if_pos h3]
  · intro h
    unfold calculate_taxa_probabilities
    rw [if_pos h]
  · intro h1 h2
    unfold calculate_taxa_probabilities
    rw [if_neg h1, if_pos h2]
  · intro h1 h2 h3
    unfold calculate_taxa_probabilities
    rw [if_neg h1, if_neg h2]
    unfold calculate_probabilities
    rw [trG.empty_no_value h3]

/-- Zero-sized total-reads file: no parsable float value. -/
def trC9e : ReadsFile := ⟨"total_reads.txt", 0, none, fun _ => rfl⟩

/-- Non-empty mismatch file used by the claim C9 runs. -/
noncomputable def tsC9 : TsTvFile := ⟨"ts_tv_counts.csv", 40, []⟩

/-- Non-empty params file used by the claim C9 runs. -/
noncomputable def pC9 : ParamsFile := ⟨"params.json", 30, ⟨0, 0, 1 / 2, 1 / 2⟩⟩

/-- Zero-sized assignment file used by the claim C9 witness. -/
def aC9e : AssignFile := ⟨"assignments.csv", 0, []⟩

/-- Claim C9 counterexample: the identification run with a zero-sized
total-reads file aborts with ValueError, which is not an EmptyInputError
and names no file. -/
theorem claim_C9_counterexample :
    trC9e.bytes = 0 ∧
      calculate_taxa_probabilities tsC9 pC9 trC9e "sample1" = Except.error Err.valueError ∧
      ∀ m : String, Err.valueError ≠ Err.emptyInput m := by
  refine ⟨rfl, ?_, ?_⟩
  · simp [calculate_taxa_probabilities, calculate_probabilities, tsC9, pC9, trC9e]
  · intro m hc
    exact Err.noConfusion hc

theorem claim_C9_empty_input_checks_witness :
    aC9e.bytes = 0 ∧
      calculate_dirichlet_abundances ppfW aC9e pFW rFW
        = Except.error (Err.emptyInput "assignments.csv") ∧
      tsC9.bytes ≠ 0 ∧ pC9.bytes ≠ 0 ∧ trC9e.bytes = 0 ∧
      calculate_taxa_probabilities tsC9 pC9 trC9e "sample2" = Except.error Err.valueError :=
  ⟨rfl,
    (claim_C9_empty_input_checks ppfW aC9e pFW rFW tsC9 pC9 trC9e "sample2").1 rfl,
    by simp [tsC9], by simp [pC9], rfl,
    (claim_C9_empty_input_checks ppfW aC9e pFW rFW tsC9 pC9 trC9e "sample2").2.2.2.2.2
      (by simp [tsC9]) (by simp [pC9]) rfl⟩

/-- Assignment table with two distinct aligned reads. -/
def rowsC5 : List AssignRow := [⟨"T1", "r1", 1⟩, ⟨"T1", "r2", 1⟩]

/-- Assignment file of the inconsistent-counts run. -/
def aC5 : AssignFile := ⟨"assignments.csv", 9, rowsC5⟩

/-- P-value file of the inconsistent-counts run. -/
def pC5 : PValueFile := ⟨"pvalues.tsv", 9, [⟨"T1", 1 / 2⟩]⟩

/-- Total-reads file declaring only one sample read. -/
def rC5 : ReadsFile := ⟨"total_reads.txt", 1, some 1, by simp⟩

/-- Claim C5 evaluated at the failing input: two distinct aligned reads
against a declared total of one sample read.  The code checks nothing and
raises no InconsistentCountsError: the run succeeds, and the Dark_Matter
category is assigned the negative mass one minus two. -/
theorem claim_C5_negative_dark_matter :
    readsInBams rowsC5 = 2 ∧
      lookupKey "Dark_Matter" (massVector rowsC5 1) = some (-1) ∧
      isOkE (calculate_dirichlet_abundances ppfW aC5 pC5 rC5) = true := by
  refine ⟨rfl, ?_, ?_⟩
  · simp [massVector, groupAgg, readWeightSums, greyMatterMass, readsInBams, locSet,
      lookupKey, List.dedup, rowsC5]
    norm_num
  · simp [calculate_dirichlet_abundances, aC5, pC5, rC5, ppfW, rowsC5, massVector, groupAgg,
      readWeightSums, greyMatterMass, readsInBams, locSet, lookupKey, List.dedup,
      t_test_vector, hmean, sortDescBy, insertDescBy, mapMExcept, buildAbundanceRow,
      betaInterval, pyRound, massTotal, categoryCount, isOkE, decide_eq_true_eq]
    norm_num [insertDescBy, mapMExcept, buildAbundanceRow, betaInterval, pyRound, lookupKey,
      massTotal, categoryCount, isOkE, decide_eq_true_eq]
    simp

/-- Assignment table whose single real taxon is literally named
Grey_Matter. -/
def rowsC10 : List AssignRow := [⟨"Grey_Matter", "r1", 1⟩]

/-- P-value table whose single real species is literally named
Dark_Matter. -/
def pvC10 : List PValueRow := [⟨"Dark_Matter", 1 / 100⟩]

/-- Claim C10: a real taxon literally named Grey_Matter with aggregated
assignment mass one is silently overwritten by the grey-matter count zero
in the mass vector, and a real species literally named Dark_Matter whose
harmonic-mean p-value is 1/100 is silently overwritten by NaN in the
significance vector: the output slots under those names hold the
pseudo-taxon quantities and the real evidence is lost. -/
theorem claim_C10_pseudo_taxon_collision :
    ((rowsC10.filter (fun r => r.taxon = "Grey_Matter")).map (fun r => r.weight)).sum = 1 ∧
      lookupKey "Grey_Matter" (massVector rowsC10 5) = some 0 ∧
      hmean ((pvC10.filter (fun r => r.species = "Dark_Matter")).map (fun r => r.pvalue))
        = 1 / 100 ∧
      lookupKey "Dark_Matter" (t_test_vector pvC10) = some none := by
  refine ⟨?_, ?_, ?_, ?_⟩
  · simp [rowsC10]
  · simp [massVector, groupAgg, readWeightSums, greyMatterMass, readsInBams, locSet,
      lookupKey, List.dedup, rowsC10]
  · simp [hmean, pvC10]
  · simp [t_test_vector, groupAgg, locSet, lookupKey, List.dedup, pvC10, hmean]

end Haystack
